import Mathlib

set_option maxRecDepth 4000

/-!
Verification development for the artifacts generator: a streamed code
generation loop consisting of a stream decoder, a code accumulator, a
server-side completion cleanup, an error watcher and an auto-fix
controller.  Strings are modelled as `List Char`; bytes as `Nat`.
-/

/-- Backtick character (0x60). -/
def btick : Char := Char.ofNat 96

/-- Single-quote character (0x27). -/
def squote : Char := Char.ofNat 39

/-- Double-quote character. -/
def dquote : Char := Char.ofNat 34

/-- Newline character. -/
def nlChar : Char := Char.ofNat 10

/-- Characters treated as whitespace by the text trimming helper. -/
def isWsChar (c : Char) : Bool :=
  c = ' ' || c = Char.ofNat 9 || c = nlChar || c = Char.ofNat 13 ||
  c = Char.ofNat 11 || c = Char.ofNat 12

/-- Leading-whitespace removal, one side of `trim`. -/
def trimL (l : List Char) : List Char := l.dropWhile isWsChar

/-- Trailing-whitespace removal, the other side of `trim`. -/
def trimR (l : List Char) : List Char := (l.reverse.dropWhile isWsChar).reverse

/-- Model of the JavaScript `String.prototype.trim`. -/
def jsTrim (l : List Char) : List Char := trimR (trimL l)

/-- Does `pat` occur at the head of `s`?  Used to model substring search. -/
def startsWithL : List Char → List Char → Bool
  | [], _ => true
  | _ :: _, [] => false
  | a :: as_, b :: bs => a = b && startsWithL as_ bs

/-- Model of `String.prototype.includes`: `pat` occurs somewhere in `s`. -/
def containsSub (pat : List Char) : List Char → Bool
  | [] => startsWithL pat []
  | c :: t => startsWithL pat (c :: t) || containsSub pat t

/-- Three consecutive backticks occur in the text: the shape of the
source's check for a markdown fence marker. -/
def hasTriple : List Char → Bool
  | c1 :: c2 :: c3 :: rest =>
      (c1 = btick && c2 = btick && c3 = btick) || hasTriple (c2 :: c3 :: rest)
  | _ => false

/-- Case-insensitive comparison of `tag` against the head of `s`,
modelling the `i` regex flag over ASCII tags. -/
def ciStarts : List Char → List Char → Bool
  | [], _ => true
  | _ :: _, [] => false
  | t :: ts, c :: cs => (t.toLower = c.toLower) && ciStarts ts cs

/-- Length of the fence-marker match at the head of `s` for the
pattern made of three backticks, the language `tag` (case-insensitive)
and an optional trailing newline; `0` when there is no match. -/
def fenceLen (tag : List Char) (s : List Char) : Nat :=
  match s with
  | b1 :: b2 :: b3 :: rest =>
      if b1 = btick && b2 = btick && b3 = btick && ciStarts tag rest then
        3 + tag.length + (if (rest.drop tag.length).head? = some nlChar then 1 else 0)
      else 0
  | _ => 0

/-- Fuel-indexed scan of one global fence-removal pass; the fuel only
bounds the recursion and is always at least the input length. -/
def stripFenceGo (tag : List Char) : Nat → List Char → List Char
  | 0, l => l
  | _ + 1, [] => []
  | fuel + 1, c :: cs =>
      if fenceLen tag (c :: cs) = 0 then c :: stripFenceGo tag fuel cs
      else stripFenceGo tag fuel (cs.drop (fenceLen tag (c :: cs) - 1))

/-- One global regex replacement pass removing every occurrence of the
fence marker with language `tag`, scanning left to right and continuing
after each match, as `String.prototype.replace` with a `g` regex does. -/
def stripFence (tag : List Char) (l : List Char) : List Char :=
  stripFenceGo tag l.length l

/-- Server-side cleanup transform on the accumulated raw model output:
five sequential fence-removal passes (typescript, tsx, jsx, javascript,
then the plain fence), followed by a trim. -/
def cleanCode (raw : List Char) : List Char :=
  jsTrim (stripFence []
    (stripFence ("javascript").data
      (stripFence ("jsx").data
        (stripFence ("tsx").data
          (stripFence ("typescript").data raw)))))

/-- One streamed record of the generation endpoint: the fragment text
and the optional `cleanedCode` field of its single choice. -/
abbrev PostRecord : Type := List Char × Option (List Char)

/-- Per-delta loop of the API route: a record is enqueued for every
nonempty delta, and the raw buffer accumulates the delta texts. -/
def postLoop : List (List Char) → List Char → List PostRecord × List Char
  | [], buf => ([], buf)
  | d :: ds, buf =>
      if d = [] then postLoop ds buf
      else
        let r := postLoop ds (buf ++ d)
        ((d, (none : Option (List Char))) :: r.1, r.2)

/-- Full record stream produced by the API route for a sequence of
model deltas: fragment records, then — only when the accumulated buffer
contains a fence marker — one final record with empty text and the
cleaned code. -/
def postRecords (deltas : List (List Char)) : List PostRecord :=
  let r := postLoop deltas []
  r.1 ++ (if hasTriple r.2 then [(([] : List Char), some (cleanCode r.2))] else [])

/-- Left and right curly brace characters. -/
def lbrace : Char := Char.ofNat 123

/-- Right curly brace. -/
def rbrace : Char := Char.ofNat 125

/-- JSON value, the result type of the embedded `JSON.parse`. Numbers
are kept as integer part, fraction digits and exponent. -/
inductive JVal where
  | jnull : JVal
  | jbool : Bool → JVal
  | jnum : Int → List Nat → Int → JVal
  | jstr : List Char → JVal
  | jarr : List JVal → JVal
  | jobj : List (List Char × JVal) → JVal

/-- JSON insignificant whitespace. -/
def jsonWsChar (c : Char) : Bool :=
  c = ' ' || c = Char.ofNat 9 || c = nlChar || c = Char.ofNat 13

/-- Skip insignificant whitespace between JSON tokens. -/
def skipJsonWs (s : List Char) : List Char := s.dropWhile jsonWsChar

/-- Value of one hexadecimal digit. -/
def hexVal (c : Char) : Option Nat :=
  if '0' ≤ c ∧ c ≤ '9' then some (c.toNat - 48)
  else if 'a' ≤ c ∧ c ≤ 'f' then some (c.toNat - 87)
  else if 'A' ≤ c ∧ c ≤ 'F' then some (c.toNat - 55)
  else none

/-- Parse exactly four hexadecimal digits. -/
def parseHex4 : List Char → Option (Nat × List Char)
  | c1 :: c2 :: c3 :: c4 :: rest =>
      match hexVal c1, hexVal c2, hexVal c3, hexVal c4 with
      | some h1, some h2, some h3, some h4 =>
          some (((h1 * 16 + h2) * 16 + h3) * 16 + h4, rest)
      | _, _, _, _ => none
  | _ => none

/-- Body of a JSON string after the opening quote: handles the escape
sequences of the JSON grammar (including surrogate pairs) and rejects
raw control characters; returns the decoded content and the rest of the
input after the closing quote. -/
def parseStringBody : Nat → List Char → Option (List Char × List Char)
  | 0, _ => none
  | _, [] => none
  | fuel + 1, c :: r =>
      if c = dquote then some ([], r)
      else if c = '\\' then
        match r with
        | [] => none
        | e :: r2 =>
            if e = dquote then
              (parseStringBody fuel r2).map (fun p => (dquote :: p.1, p.2))
            else if e = '\\' then
              (parseStringBody fuel r2).map (fun p => ('\\' :: p.1, p.2))
            else if e = '/' then
              (parseStringBody fuel r2).map (fun p => ('/' :: p.1, p.2))
            else if e = 'b' then
              (parseStringBody fuel r2).map (fun p => (Char.ofNat 8 :: p.1, p.2))
            else if e = 'f' then
              (parseStringBody fuel r2).map (fun p => (Char.ofNat 12 :: p.1, p.2))
            else if e = 'n' then
              (parseStringBody fuel r2).map (fun p => (nlChar :: p.1, p.2))
            else if e = 'r' then
              (parseStringBody fuel r2).map (fun p => (Char.ofNat 13 :: p.1, p.2))
            else if e = 't' then
              (parseStringBody fuel r2).map (fun p => (Char.ofNat 9 :: p.1, p.2))
            else if e = 'u' then
              match parseHex4 r2 with
              | none => none
              | some (n, r3) =>
                  if 0xD800 ≤ n ∧ n ≤ 0xDBFF then
                    match r3 with
                    | b1 :: b2 :: r4 =>
                        if b1 = '\\' ∧ b2 = 'u' then
                          match parseHex4 r4 with
                          | some (m, r5) =>
                              if 0xDC00 ≤ m ∧ m ≤ 0xDFFF then
                                (parseStringBody fuel r5).map (fun p =>
                                  (Char.ofNat (0x10000 + (n - 0xD800) * 0x400 + (m - 0xDC00)) :: p.1, p.2))
                              else
                                (parseStringBody fuel r3).map (fun p => (Char.ofNat n :: p.1, p.2))
                          | none =>
                              (parseStringBody fuel r3).map (fun p => (Char.ofNat n :: p.1, p.2))
                        else
                          (parseStringBody fuel r3).map (fun p => (Char.ofNat n :: p.1, p.2))
                    | _ =>
                        (parseStringBody fuel r3).map (fun p => (Char.ofNat n :: p.1, p.2))
                  else
                    (parseStringBody fuel r3).map (fun p => (Char.ofNat n :: p.1, p.2))
            else none
      else if c.toNat < 0x20 then none
      else (parseStringBody fuel r).map (fun p => (c :: p.1, p.2))

/-- Digit character test for JSON numbers. -/
def isDig (c : Char) : Bool := '0' ≤ c && c ≤ '9'

/-- Numeric value of a digit list, most significant first. -/
def digitsToNat (ds : List Char) : Nat :=
  ds.foldl (fun acc d => acc * 10 + (d.toNat - 48)) 0

/-- Parse the integer-part digits of a JSON number: a single `0`, or a
nonzero digit followed by more digits (leading zeros are rejected). -/
def parseIntDigits (s : List Char) : Option (List Char × List Char) :=
  match s with
  | [] => none
  | c :: r =>
      if c = '0' then some ([c], r)
      else if isDig c then some (c :: r.takeWhile isDig, r.dropWhile isDig)
      else none

/-- Parse a JSON number per the JSON grammar. -/
def parseNumber (s : List Char) : Option (JVal × List Char) :=
  let (neg, s1) := match s with
                   | c :: r => if c = '-' then (true, r) else (false, s)
                   | [] => (false, s)
  match parseIntDigits s1 with
  | none => none
  | some (ids, s2) =>
      let iv : Int := if neg then -(digitsToNat ids : Int) else (digitsToNat ids : Int)
      let (frac, s3) :=
        match s2 with
        | c :: r =>
            if c = '.' ∧ (r.takeWhile isDig) ≠ [] then
              ((r.takeWhile isDig).map (fun d => d.toNat - 48), r.dropWhile isDig)
            else ([], s2)
        | [] => ([], s2)
      match s3 with
      | c :: r =>
          if c = 'e' ∨ c = 'E' then
            let (eneg, r1) := match r with
                              | d :: r2 =>
                                  if d = '-' then (true, r2)
                                  else if d = '+' then (false, r2)
                                  else (false, r)
                              | [] => (false, r)
            let eds := r1.takeWhile isDig
            if eds = [] then none
            else
              let ev : Int := if eneg then -(digitsToNat eds : Int) else (digitsToNat eds : Int)
              some (JVal.jnum iv frac ev, r1.dropWhile isDig)
          else some (JVal.jnum iv frac 0, s3)
      | [] => some (JVal.jnum iv frac 0, s3)

mutual

/-- Parse one JSON value at the head of the input (no leading
whitespace), fuel-indexed. -/
def parseVal : Nat → List Char → Option (JVal × List Char)
  | 0, _ => none
  | _ + 1, [] => none
  | fuel + 1, c :: r =>
      if c = 'n' then
        if startsWithL ("ull").data r then some (JVal.jnull, r.drop 3) else none
      else if c = 't' then
        if startsWithL ("rue").data r then some (JVal.jbool true, r.drop 3) else none
      else if c = 'f' then
        if startsWithL ("alse").data r then some (JVal.jbool false, r.drop 4) else none
      else if c = dquote then
        (parseStringBody (r.length + 1) r).map (fun p => (JVal.jstr p.1, p.2))
      else if c = '[' then
        match skipJsonWs r with
        | d :: r1 =>
            if d = ']' then some (JVal.jarr [], r1)
            else (parseElems fuel (skipJsonWs r)).map (fun p => (JVal.jarr p.1, p.2))
        | [] => none
      else if c = lbrace then
        match skipJsonWs r with
        | d :: r1 =>
            if d = rbrace then some (JVal.jobj [], r1)
            else (parseMembers fuel (skipJsonWs r)).map (fun p => (JVal.jobj p.1, p.2))
        | [] => none
      else parseNumber (c :: r)

/-- Parse one or more comma-separated array elements up to the closing
bracket. -/
def parseElems : Nat → List Char → Option (List JVal × List Char)
  | 0, _ => none
  | fuel + 1, s =>
      match parseVal fuel s with
      | none => none
      | some (v, r) =>
          match skipJsonWs r with
          | c :: r1 =>
              if c = ',' then
                (parseElems fuel (skipJsonWs r1)).map (fun p => (v :: p.1, p.2))
              else if c = ']' then some ([v], r1)
              else none
          | [] => none

/-- Parse one or more comma-separated object members up to the closing
brace. -/
def parseMembers : Nat → List Char → Option (List (List Char × JVal) × List Char)
  | 0, _ => none
  | fuel + 1, s =>
      match s with
      | c :: r =>
          if c = dquote then
            match parseStringBody (r.length + 1) r with
            | none => none
            | some (key, r1) =>
                match skipJsonWs r1 with
                | d :: r2 =>
                    if d = ':' then
                      match parseVal fuel (skipJsonWs r2) with
                      | none => none
                      | some (v, r3) =>
                          match skipJsonWs r3 with
                          | e :: r4 =>
                              if e = ',' then
                                (parseMembers fuel (skipJsonWs r4)).map
                                  (fun p => ((key, v) :: p.1, p.2))
                              else if e = rbrace then some ([(key, v)], r4)
                              else none
                          | [] => none
                    else none
                | [] => none
          else none
      | [] => none

end

/-- Model of `JSON.parse`: one complete value, with surrounding
whitespace allowed and nothing else. -/
def jsonParse (s : List Char) : Option JVal :=
  match parseVal (2 * s.length + 2) (skipJsonWs s) with
  | some (v, rest) => if skipJsonWs rest = [] then some v else none
  | none => none

/-- Unicode replacement character, emitted by the text decoder on
malformed byte sequences. -/
def replChar : Char := Char.ofNat 0xFFFD

/-- State of the incremental UTF-8 text decoder: code point under
construction, continuation bytes seen and needed, and the admissible
range for the next continuation byte, exactly the state of the WHATWG
UTF-8 decode algorithm backing `TextDecoder`. -/
structure Utf8State where
  cp : Nat
  seen : Nat
  needed : Nat
  lo : Nat
  hi : Nat

/-- Initial decoder state. -/
def initUtf8 : Utf8State := ⟨0, 0, 0, 0x80, 0xBF⟩

/-- Handle one byte in the initial state (no sequence in progress). -/
def utf8Start (b : Nat) : List Char × Utf8State :=
  if b ≤ 0x7F then ([Char.ofNat b], initUtf8)
  else if 0xC2 ≤ b ∧ b ≤ 0xDF then
    ([], ⟨b % 32, 0, 1, 0x80, 0xBF⟩)
  else if 0xE0 ≤ b ∧ b ≤ 0xEF then
    ([], ⟨b % 16, 0, 2, (if b = 0xE0 then 0xA0 else 0x80), (if b = 0xED then 0x9F else 0xBF)⟩)
  else if 0xF0 ≤ b ∧ b ≤ 0xF4 then
    ([], ⟨b % 8, 0, 3, (if b = 0xF0 then 0x90 else 0x80), (if b = 0xF4 then 0x8F else 0xBF)⟩)
  else ([replChar], initUtf8)

/-- Process one byte of the stream: continuation bytes extend the
pending sequence; an out-of-range byte emits a replacement character
and is reconsumed from the initial state. -/
def utf8Byte (st : Utf8State) (b : Nat) : List Char × Utf8State :=
  if st.needed = 0 then utf8Start b
  else if st.lo ≤ b ∧ b ≤ st.hi then
    if st.seen + 1 = st.needed then
      ([Char.ofNat (st.cp * 64 + b % 64)], initUtf8)
    else
      ([], ⟨st.cp * 64 + b % 64, st.seen + 1, st.needed, 0x80, 0xBF⟩)
  else
    let r := utf8Start b
    (replChar :: r.1, r.2)

/-- Streaming decode of a byte list from a given decoder state,
modelling one `decoder.decode(value, stream: true)` call. -/
def utf8DecodeFold (st : Utf8State) : List Nat → List Char × Utf8State
  | [] => ([], st)
  | b :: bs =>
      let r := utf8Byte st b
      let rest := utf8DecodeFold r.2 bs
      (r.1 ++ rest.1, rest.2)

/-- Decoded text of each chunk in turn, threading the decoder state
across chunk boundaries as the streaming `TextDecoder` does. -/
def utf8Texts (st : Utf8State) : List (List Nat) → List (List Char)
  | [] => []
  | c :: cs =>
      let r := utf8DecodeFold st c
      r.1 :: utf8Texts r.2 cs

/-- Split a text on newline characters, as `text.split` with a newline
separator: `n` separators yield `n + 1` (possibly empty) pieces. -/
def splitLines (s : List Char) : List (List Char) :=
  match s with
  | [] => [[]]
  | c :: r =>
      if c = nlChar then [] :: splitLines r
      else
        match splitLines r with
        | l :: ls => (c :: l) :: ls
        | [] => [[c]]

/-- Handling of one line by the stream decoder: blank lines are
skipped, and a line that fails to parse as JSON is dropped (the
malformed-line recovery path). -/
def lineToRec (line : List Char) : Option JVal :=
  if jsTrim line = [] then none else jsonParse line

/-- Records decoded from the text of one chunk: the chunk's text is
split on newlines and each non-blank line parsed independently. -/
def processChunk (chunk : List Char) : List JVal :=
  (splitLines chunk).filterMap lineToRec

/-- Text-level stream decoder: each chunk's text is processed on its
own; no partial line is carried from one chunk to the next, because the
source splits and parses inside the per-chunk loop. -/
def readStreamText (chunks : List (List Char)) : List JVal :=
  (chunks.map processChunk).flatten

/-- Byte-level stream decoder, the full model of `readStream`: the
streaming text decoder turns byte chunks into text chunks (buffering
partial multi-byte characters only), and each text chunk is split into
lines and parsed. -/
def readStream (chunks : List (List Nat)) : List JVal :=
  readStreamText (utf8Texts initUtf8 chunks)

/-- One choice of a streamed record as the client consumes it: its
fragment text and optional cleaned code. -/
structure StreamChoice where
  text : List Char
  cleanedCode : Option (List Char)

/-- One step of the client's accumulation loop over a record's choice
list: append all fragment texts to the buffer, then, when the first
choice carries `cleanedCode`, replace the whole buffer with it. -/
def accumStep (buf : List Char) (choices : List StreamChoice) : List Char :=
  let buf1 := buf ++ (choices.map (fun c => c.text)).flatten
  match choices with
  | c0 :: _ =>
      match c0.cleanedCode with
      | some cc => cc
      | none => buf1
  | [] => buf1

/-- Final code artifact obtained by folding the records of one
generation stream in arrival order, starting from the empty buffer. -/
def accumulate (records : List (List StreamChoice)) : List Char :=
  records.foldl accumStep []

/-- Fragment stream event: one choice holding a text delta. -/
def fragmentEv (t : List Char) : List StreamChoice := [⟨t, none⟩]

/-- Final-cleaned stream event: one choice with empty text and the
cleaned code present. -/
def finalCleanedEv (t : List Char) : List StreamChoice := [⟨[], some t⟩]

/-- Quote character class of the error-matching regexes: a single or a
double quote. -/
def isQuoteCh (c : Char) : Bool := c = squote || c = dquote

/-- Attempt to match the missing-module regex at the head of `s`: the
literal lead text, an opening quote, one or more non-quote characters
(the capture), and a closing quote. -/
def tryCFMAt (s : List Char) : Option (List Char) :=
  if startsWithL ("Cannot find module ").data s then
    match s.drop 19 with
    | q :: u =>
        if isQuoteCh q then
          if u.takeWhile (fun c => !(isQuoteCh c)) ≠ [] ∧
             u.dropWhile (fun c => !(isQuoteCh c)) ≠ [] then
            some (u.takeWhile (fun c => !(isQuoteCh c)))
          else none
        else none
    | [] => none
  else none

/-- First match of the missing-module regex in `s`, scanning start
positions left to right as a JavaScript regex search does. -/
def matchCFM : List Char → Option (List Char)
  | [] => none
  | c :: t =>
      match tryCFMAt (c :: t) with
      | some m => some m
      | none => matchCFM t

/-- Word character class of the regex escape for word characters:
ASCII letters, digits and underscore. -/
def isWordChar (c : Char) : Bool := c.isAlphanum || c = '_'

/-- Attempt to match the undefined-reference regex at the head of `s`:
a nonempty greedy word-character run (the capture) followed by the
literal tail text. -/
def tryINDAt (s : List Char) : Option (List Char) :=
  if s.takeWhile isWordChar ≠ [] ∧
     startsWithL (" is not defined").data (s.dropWhile isWordChar) then
    some (s.takeWhile isWordChar)
  else none

/-- First match of the undefined-reference regex in `s`. -/
def matchIND : List Char → Option (List Char)
  | [] => none
  | c :: t =>
      match tryINDAt (c :: t) with
      | some m => some m
      | none => matchIND t

/-- Attempt to match the quoted-identifier regex (either quote kind,
one or more non-quote characters, either quote kind) at the head. -/
def tryQuotedAt (s : List Char) : Option (List Char) :=
  match s with
  | q :: u =>
      if isQuoteCh q then
        if u.takeWhile (fun c => !(isQuoteCh c)) ≠ [] ∧
           u.dropWhile (fun c => !(isQuoteCh c)) ≠ [] then
          some (u.takeWhile (fun c => !(isQuoteCh c)))
        else none
      else none
  | [] => none

/-- First match of the quoted-identifier regex in `s`. -/
def matchQuoted : List Char → Option (List Char)
  | [] => none
  | c :: t =>
      match tryQuotedAt (c :: t) with
      | some m => some m
      | none => matchQuoted t

/-- Error message extracted by one inspection of the preview document:
the body text drives an else-if chain over the missing-module pattern,
the undefined-reference pattern, and the list of texts of elements the
sandbox flags as errors. -/
def extractError (body : List Char) (errs : List (List Char)) : List Char :=
  if containsSub ("Cannot find module").data body ||
     containsSub ("Module not found").data body then
    match matchCFM body with
    | some m => ("Cannot find module ").data ++ squote :: m ++ [squote]
    | none => []
  else if containsSub ("is not defined").data body then
    match matchIND body with
    | some v => v ++ (" is not defined").data
    | none => []
  else
    match errs with
    | [] => []
    | e :: _ => if e = [] then ("Unknown error").data else e

/-- Fix instruction synthesized by the auto-fix controller from the
observed error message, specialised for the missing-module and
undefined-reference categories. -/
def autoFixPromptFor (msg : List Char) : List Char :=
  if containsSub ("Cannot find module").data msg ||
     containsSub ("Module not found").data msg then
    (("Fix the import error for module ").data ++ dquote ::
      (match matchQuoted msg with
       | some m => m
       | none => []) ++ dquote ::
      (". If this is an external library, remove it and implement the functionality using only React, TypeScript, and Tailwind CSS. If it").data)
      ++ squote :: ("s a typo, correct it.").data
  else if containsSub ("is not defined").data msg then
    ("Fix the error: ").data ++ dquote ::
      (match matchIND msg with
       | some v => v
       | none => []) ++ (" is not defined").data ++ dquote ::
      (". Make sure to properly import or define this variable/function.").data
  else ("Fix this error: ").data ++ msg

/-- Role of a transcript message. -/
inductive MsgRole where
  | user : MsgRole
  | assistant : MsgRole

/-- Client page state: the code artifact, the transcript, the fix
input, and the error-watcher and auto-fix bookkeeping. -/
structure AppState where
  generatedCode : List Char
  isGenerating : Bool
  messages : List (MsgRole × List Char)
  fixPrompt : List Char
  showFixInput : Bool
  hasError : Bool
  isAutoFixing : Bool
  autoFixAttempts : Nat
  lastError : List Char

/-- Initial page state. -/
def initState : AppState :=
  ⟨[], false, [], [], false, false, false, 0, []⟩

/-- Instruction the fix operation will act on: the custom prompt when
one is given and nonempty (JavaScript truthiness of the argument),
otherwise the stored fix input. -/
def effectiveFix (s : AppState) (custom : Option (List Char)) : List Char :=
  match custom with
  | some c => if c = [] then s.fixPrompt else c
  | none => s.fixPrompt

/-- Synchronous head of the fix operation: a blank effective
instruction returns at once with nothing changed; otherwise the
in-flight flag is raised and the user message appended, and the request
goes out (the returned flag). -/
def fixStart (s : AppState) (custom : Option (List Char)) : AppState × Bool :=
  if jsTrim (effectiveFix s custom) = [] then (s, false)
  else
    ({s with isGenerating := true,
             messages := s.messages ++ [(MsgRole.user, effectiveFix s custom)]}, true)

/-- Completion of an issued fix request.  On success the streamed
records are folded into the new artifact, the assistant message
appended, the fix input and error flag cleared; the final section
clears the in-flight and auto-fix flags on success and failure alike. -/
def fixFinish (s : AppState) (outcome : Option (List (List StreamChoice))) : AppState :=
  match outcome with
  | some rs =>
      {s with generatedCode := accumulate rs,
              messages := s.messages ++ [(MsgRole.assistant, accumulate rs)],
              fixPrompt := [], hasError := false,
              isGenerating := false, isAutoFixing := false}
  | none => {s with isGenerating := false, isAutoFixing := false}

/-- Whole fix operation run to completion: the start phase, then, only
when a request was issued, the completion phase with the given
outcome. -/
def fixCode (s : AppState) (custom : Option (List Char))
    (outcome : Option (List (List StreamChoice))) : AppState × Bool :=
  if (fixStart s custom).2 then (fixFinish (fixStart s custom).1 outcome, true)
  else ((fixStart s custom).1, false)

/-- Start-over control: clears the artifact, transcript, fix input,
error flag, attempt counter and recorded error message. -/
def startOver (s : AppState) : AppState :=
  {s with generatedCode := [], messages := [], showFixInput := false,
          fixPrompt := [], hasError := false, autoFixAttempts := 0,
          lastError := []}

/-- Auto-fix controller entry: refuse when already in progress or the
attempt budget is spent; otherwise raise the in-progress flag,
increment the attempt counter, and dispatch the synthesized fix
instruction.  The returned flag reports whether a fix was dispatched. -/
def autoFixError (s : AppState) (errorMessage : List Char) : AppState × Bool :=
  if s.isAutoFixing = true ∨ 3 ≤ s.autoFixAttempts then (s, false)
  else
    fixStart
      {s with isAutoFixing := true, autoFixAttempts := s.autoFixAttempts + 1}
      (some (autoFixPromptFor errorMessage))

/-- One error-watcher invocation over the observed body text and
flagged-element texts: a no-op while a generation or auto-fix is in
flight or the budget is spent; otherwise the extracted message, when
nonempty and different from the last recorded one, is recorded and
dispatched. -/
def checkForErrors (s : AppState) (body : List Char) (errs : List (List Char)) :
    AppState × Bool :=
  if s.isGenerating = true ∨ s.isAutoFixing = true ∨ 3 ≤ s.autoFixAttempts then
    (s, false)
  else
    if extractError body errs ≠ [] ∧ extractError body errs ≠ s.lastError then
      autoFixError
        {s with lastError := extractError body errs, hasError := true}
        (extractError body errs)
    else (s, false)

/-- Events driving the watcher and fix loop: a watcher invocation, the
completion of an in-flight fix, a manual fix run to completion, and the
start-over control. -/
inductive Ev where
  | check : List Char → List (List Char) → Ev
  | fixDone : Option (List (List StreamChoice)) → Ev
  | manualFix : List Char → Option (List (List StreamChoice)) → Ev
  | restart : Ev

/-- One step of the loop; the flag reports an auto-fix dispatch. -/
def step (s : AppState) : Ev → AppState × Bool
  | Ev.check body errs => checkForErrors s body errs
  | Ev.fixDone outcome => (fixFinish s outcome, false)
  | Ev.manualFix instr outcome =>
      ((fixCode {s with fixPrompt := instr} none outcome).1, false)
  | Ev.restart => (startOver s, false)

/-- Trace of a run: the state each event fires in, paired with whether
that event dispatched an auto-fix. -/
def runStates (s : AppState) : List Ev → List (AppState × Bool)
  | [] => []
  | e :: es => (s, (step s e).2) :: runStates (step s e).1 es

/-- State after a whole event sequence. -/
def runFinal (s : AppState) (evs : List Ev) : AppState :=
  evs.foldl (fun t e => (step t e).1) s

/-- Byte chunk holding the first half of a record line, used to probe
chunk-boundary behaviour. -/
def c4bytes1 : List Nat := (("\x7b\"choices\":[\x7b\"text\"").data).map Char.toNat

/-- Byte chunk holding the second half of the record line and the
terminating newline. -/
def c4bytes2 : List Nat := ((":\"hi\"\x7d]\x7d\n").data).map Char.toNat

/-- Record value encoded by the concatenation of the two byte chunks. -/
def c4record : JVal :=
  JVal.jobj [(("choices").data,
    JVal.jarr [JVal.jobj [(("text").data, JVal.jstr ("hi").data)]])]

/-- Preview body text whose missing-module trigger substring is present
while the extraction regex cannot match, and whose undefined-reference
pattern is extractable. -/
def c5body : List Char := ("Module not found x is not defined").data

/-- Concrete page state with an auto-fix in progress, two spent
attempts and a recorded error. -/
def c9state : AppState :=
  ⟨("code").data, false, [], [], true, true, true, 2, ("boom").data⟩

/-- Accumulating a fragment event appends its text to the buffer. -/
theorem accumStep_fragment (buf t : List Char) :
    accumStep buf (fragmentEv t) = buf ++ t := by
  simp [accumStep, fragmentEv]

/-- Accumulating a final-cleaned event replaces the buffer. -/
theorem accumStep_final (buf t : List Char) :
    accumStep buf (finalCleanedEv t) = t := by
  simp [accumStep, finalCleanedEv]

/-- Folding fragment events from any starting buffer appends their
concatenation. -/
theorem foldl_fragments (ts : List (List Char)) :
    ∀ b : List Char, (ts.map fragmentEv).foldl accumStep b = b ++ ts.flatten := by
  induction ts with
  | nil => intro b; simp
  | cons t ts ih => intro b; simp [accumStep_fragment, ih]

/-- Claim C1 (confirmed).  Code Accumulator fold semantics: consuming a
stream of fragment events with no final-cleaned event yields the
concatenation of the fragment texts in order, and a stream of fragment
events terminated by one final-cleaned event yields exactly the cleaned
text, discarding all accumulated fragments. -/
theorem claim_C1 (ts : List (List Char)) (t : List Char) :
    accumulate (ts.map fragmentEv) = ts.flatten ∧
    accumulate (ts.map fragmentEv ++ [finalCleanedEv t]) = t := by
  constructor
  · simpa using foldl_fragments ts []
  · simp [accumulate, List.foldl_append, accumStep_final]

/-- Claim C10 (confirmed).  Blank fix instruction is a total no-op:
when the effective instruction trims to nothing the fix operation
returns at once with the state unchanged and no request issued. -/
theorem claim_C10 (s : AppState) (custom : Option (List Char))
    (outcome : Option (List (List StreamChoice)))
    (h : jsTrim (effectiveFix s custom) = []) :
    fixCode s custom outcome = (s, false) := by
  simp [fixCode, fixStart, h]

/-- Witness for claim C10 at a whitespace-only custom instruction. -/
theorem claim_C10_witness :
    fixCode initState (some (("   ").data)) none = (initState, false) :=
  claim_C10 initState (some (("   ").data)) none (by decide)

/-- Counterexample to claim C9 as stated: at a concrete state with an
auto-fix in progress, the start-over control leaves `isAutoFixing`
true, and a successful manual fix leaves the attempt counter at 2 and
the recorded error message in place, contradicting the claimed reset to
zero attempts with cleared error state. -/
theorem claim_C9_counterexample :
    (startOver c9state).isAutoFixing = true ∧
    ((fixCode c9state (some (("make it blue").data))
        (some [fragmentEv (("newcode").data)])).1).autoFixAttempts = 2 ∧
    ((fixCode c9state (some (("make it blue").data))
        (some [fragmentEv (("newcode").data)])).1).lastError = ("boom").data := by
  constructor
  · decide
  · constructor <;> decide

/-- Claim C9 (corrected).  Start-over resets the attempt counter to
zero and clears the recorded error state but leaves the in-progress
flag unchanged; a successful fix completion clears the in-flight and
in-progress flags, the error flag and the fix input, but leaves the
attempt counter and the recorded error message unchanged. -/
theorem claim_C9 (s : AppState) (instr : List Char)
    (rs : List (List StreamChoice))
    (h : ¬ jsTrim (effectiveFix s (some instr)) = []) :
    (startOver s).autoFixAttempts = 0 ∧
    (startOver s).lastError = [] ∧
    (startOver s).hasError = false ∧
    (startOver s).isAutoFixing = s.isAutoFixing ∧
    (fixCode s (some instr) (some rs)).1.isGenerating = false ∧
    (fixCode s (some instr) (some rs)).1.isAutoFixing = false ∧
    (fixCode s (some instr) (some rs)).1.hasError = false ∧
    (fixCode s (some instr) (some rs)).1.fixPrompt = [] ∧
    (fixCode s (some instr) (some rs)).1.autoFixAttempts = s.autoFixAttempts ∧
    (fixCode s (some instr) (some rs)).1.lastError = s.lastError := by
  simp [startOver, fixCode, fixStart, fixFinish, h]

/-- Witness for claim C9 at a concrete state and instruction. -/
theorem claim_C9_witness :
    (startOver initState).autoFixAttempts = 0 ∧
    (startOver initState).lastError = [] ∧
    (startOver initState).hasError = false ∧
    (startOver initState).isAutoFixing = initState.isAutoFixing ∧
    (fixCode initState (some (("do it").data)) (some [])).1.isGenerating = false ∧
    (fixCode initState (some (("do it").data)) (some [])).1.isAutoFixing = false ∧
    (fixCode initState (some (("do it").data)) (some [])).1.hasError = false ∧
    (fixCode initState (some (("do it").data)) (some [])).1.fixPrompt = [] ∧
    (fixCode initState (some (("do it").data)) (some [])).1.autoFixAttempts = initState.autoFixAttempts ∧
    (fixCode initState (some (("do it").data)) (some [])).1.lastError = initState.lastError :=
  claim_C9 initState (("do it").data) [] (by decide)

/-- Synthesized auto-fix instructions always begin with the letter F of
their fixed lead text. -/
theorem autoFixPromptFor_head (msg : List Char) :
    ∃ l, autoFixPromptFor msg = 'F' :: l := by
  unfold autoFixPromptFor
  split
  · exact ⟨_, rfl⟩
  · split
    · exact ⟨_, rfl⟩
    · exact ⟨_, rfl⟩

/-- Trimming a text that starts with a non-whitespace character never
yields the empty text. -/
theorem jsTrim_cons_ne_nil (c : Char) (l : List Char) (hc : isWsChar c = false) :
    jsTrim (c :: l) ≠ [] := by
  intro h
  simp only [jsTrim, trimL, trimR, List.dropWhile_cons, hc, Bool.false_eq_true,
    if_false, List.reverse_eq_nil_iff, List.dropWhile_eq_nil_iff] at h
  have := h c (by simp)
  simp [hc] at this

/-- Every step keeps the attempt counter within its bound. -/
theorem step_attempts_le (s : AppState) (e : Ev) (h : s.autoFixAttempts ≤ 3) :
    (step s e).1.autoFixAttempts ≤ 3 := by
  cases e with
  | check body errs =>
      simp only [step, checkForErrors, autoFixError, fixStart]
      split_ifs <;> simp_all <;> omega
  | fixDone outcome =>
      cases outcome <;> simp_all [step, fixFinish]
  | manualFix instr outcome =>
      cases outcome <;>
        simp only [step, fixCode, fixStart, fixFinish] <;>
        split_ifs <;> simp_all
  | restart => simp [step, startOver]

/-- A step dispatches an auto-fix only from a state where no auto-fix
is in progress and the attempt budget is not spent. -/
theorem step_dispatch (s : AppState) (e : Ev) (h : (step s e).2 = true) :
    s.isAutoFixing = false ∧ s.autoFixAttempts < 3 := by
  cases e with
  | check body errs =>
      simp only [step, checkForErrors, autoFixError, fixStart] at h
      split_ifs at h with h1 h2 h3 h4
      push_neg at h1
      obtain ⟨hg, hf, hatt⟩ := h1
      exact ⟨by simpa using hf, by omega⟩
  | fixDone outcome => simp [step] at h
  | manualFix instr outcome => simp [step] at h
  | restart => simp [step] at h

/-- Claim C2 (confirmed).  Auto-fix bound: over every event sequence
from a state within budget, every auto-fix dispatch happens at a state
whose in-progress flag is down and whose attempt counter is below 3,
and the attempt counter stays at most 3 throughout and at the end. -/
theorem claim_C2 (evs : List Ev) (s0 : AppState) (h0 : s0.autoFixAttempts ≤ 3) :
    (∀ p ∈ runStates s0 evs,
        p.1.autoFixAttempts ≤ 3 ∧
        (p.2 = true → p.1.isAutoFixing = false ∧ p.1.autoFixAttempts < 3)) ∧
    (runFinal s0 evs).autoFixAttempts ≤ 3 := by
  induction evs generalizing s0 with
  | nil => exact ⟨by simp [runStates], by simpa [runFinal] using h0⟩
  | cons e es ih =>
      have hstep := step_attempts_le s0 e h0
      obtain ⟨ihmem, ihfin⟩ := ih (step s0 e).1 hstep
      constructor
      · intro p hp
        simp only [runStates, List.mem_cons] at hp
        rcases hp with hp | hp
        · subst hp
          exact ⟨h0, fun hd => step_dispatch s0 e hd⟩
        · exact ihmem p hp
      · simpa [runFinal] using ihfin

/-- Witness for claim C2 on a concrete trace that dispatches one fix. -/
theorem claim_C2_witness :
    (runFinal initState
      [Ev.check (("y is not defined").data) [], Ev.fixDone none]).autoFixAttempts ≤ 3 :=
  (claim_C2 [Ev.check (("y is not defined").data) [], Ev.fixDone none]
    initState (by decide)).2

/-- Claim C3 (confirmed).  Error de-duplication: at any watcher
invocation that the in-flight and budget guards admit, a message equal
to the last recorded one (or an empty extraction) triggers no dispatch,
while a nonempty message differing from the last recorded one triggers
exactly one dispatch and becomes the recorded message; consequently, on
concrete traces, two consecutive identical observations dispatch once,
while the pattern A, B, A again dispatches three times. -/
theorem claim_C3 (s : AppState) (body : List Char) (errs : List (List Char))
    (hg : s.isGenerating = false) (ha : s.isAutoFixing = false)
    (hn : s.autoFixAttempts < 3) :
    ((extractError body errs = [] ∨ extractError body errs = s.lastError) →
        checkForErrors s body errs = (s, false)) ∧
    (extractError body errs ≠ [] → extractError body errs ≠ s.lastError →
        (checkForErrors s body errs).2 = true ∧
        (checkForErrors s body errs).1.lastError = extractError body errs) ∧
    (runStates initState
        [Ev.check (("x is not defined").data) [], Ev.fixDone none,
         Ev.check (("y is not defined").data) [], Ev.fixDone none,
         Ev.check (("x is not defined").data) []]).map (fun p => p.2) =
      [true, false, true, false, true] ∧
    (runStates initState
        [Ev.check (("x is not defined").data) [], Ev.fixDone none,
         Ev.check (("x is not defined").data) []]).map (fun p => p.2) =
      [true, false, false] := by
  obtain ⟨l, hl⟩ := autoFixPromptFor_head (extractError body errs)
  refine ⟨?_, ?_, by decide, by decide⟩
  · intro hmsg
    have hguard : ¬ (s.isGenerating = true ∨ s.isAutoFixing = true ∨
        3 ≤ s.autoFixAttempts) := by
      push_neg
      exact ⟨by simp [hg], by simp [ha], by omega⟩
    rcases hmsg with hmsg | hmsg <;>
      simp [checkForErrors, hguard, hmsg]
  · intro hne hdiff
    have hguard : ¬ (s.isGenerating = true ∨ s.isAutoFixing = true ∨
        3 ≤ s.autoFixAttempts) := by
      push_neg
      exact ⟨by simp [hg], by simp [ha], by omega⟩
    have hguard2 : ¬ (s.isAutoFixing = true ∨ 3 ≤ s.autoFixAttempts) := by
      push_neg
      exact ⟨by simp [ha], by omega⟩
    have hprompt : autoFixPromptFor (extractError body errs) ≠ [] := by
      rw [hl]; simp
    have htrim : jsTrim (autoFixPromptFor (extractError body errs)) ≠ [] := by
      rw [hl]
      exact jsTrim_cons_ne_nil 'F' l (by decide)
    simp [checkForErrors, autoFixError, fixStart, effectiveFix, hguard, hguard2,
      hne, hdiff, hprompt, htrim, hg]

/-- Witness for claim C3: a repeat of the recorded message triggers
nothing, and a fresh message at a fresh state dispatches. -/
theorem claim_C3_witness :
    checkForErrors { initState with lastError := ("x is not defined").data }
        (("x is not defined").data) [] =
      ({ initState with lastError := ("x is not defined").data }, false) ∧
    (checkForErrors initState (("x is not defined").data) []).2 = true :=
  ⟨(claim_C3 { initState with lastError := ("x is not defined").data }
      (("x is not defined").data) [] rfl rfl (by decide)).1 (Or.inr (by decide)),
   ((claim_C3 initState (("x is not defined").data) [] rfl rfl (by decide)).2.1
      (by decide) (by decide)).1⟩

/-- Counterexample to claim C5 as stated: on a body text containing the
missing-module trigger substring but no quoted module, with an
extractable undefined-reference pattern present and a flagged error
element available, the extracted message is empty — the first non-empty
match does not win. -/
theorem claim_C5_counterexample :
    extractError c5body [("boom").data] = [] ∧
    matchIND c5body = some ['x'] := by
  constructor <;> decide

/-- Claim C5 (corrected).  Match priority of the error watcher: the
branch is selected by the first trigger substring present, in the fixed
order missing-module, undefined-reference, flagged element; within the
selected branch a failed extraction yields the empty message and
lower-priority patterns are never consulted. -/
theorem claim_C5 (body : List Char) (errs : List (List Char)) :
    ((containsSub ("Cannot find module").data body ||
        containsSub ("Module not found").data body) = true →
      extractError body errs =
        (match matchCFM body with
         | some m => ("Cannot find module ").data ++ squote :: m ++ [squote]
         | none => [])) ∧
    ((containsSub ("Cannot find module").data body ||
        containsSub ("Module not found").data body) = false →
      containsSub ("is not defined").data body = true →
      extractError body errs =
        (match matchIND body with
         | some v => v ++ (" is not defined").data
         | none => [])) ∧
    ((containsSub ("Cannot find module").data body ||
        containsSub ("Module not found").data body) = false →
      containsSub ("is not defined").data body = false →
      extractError body errs =
        (match errs with
         | [] => []
         | e :: _ => if e = [] then ("Unknown error").data else e)) := by
  refine ⟨?_, ?_, ?_⟩
  · intro h1
    simp only [extractError, Bool.or_eq_true] at h1 ⊢
    rw [if_pos h1]
  · intro h1 h2
    simp only [extractError, Bool.or_eq_true] at h1 ⊢
    rw [if_neg (by simp [Bool.or_eq_true] at h1 ⊢; tauto), if_pos h2]
  · intro h1 h2
    simp only [extractError, Bool.or_eq_true] at h1 ⊢
    rw [if_neg (by simp [Bool.or_eq_true] at h1 ⊢; tauto), if_neg (by simp [h2])]

/-- Witness for claim C5: the undefined-reference branch applies when
the missing-module trigger is absent. -/
theorem claim_C5_witness :
    extractError (("x is not defined").data) [("boom").data] =
      (match matchIND (("x is not defined").data) with
       | some v => v ++ (" is not defined").data
       | none => []) :=
  (claim_C5 (("x is not defined").data) [("boom").data]).2.1 (by decide) (by decide)

/-- Records enqueued by the per-delta loop are exactly the nonempty
deltas as fragment records, in order. -/
theorem postLoop_fst (ds : List (List Char)) :
    ∀ buf, (postLoop ds buf).1 =
      (ds.filter (fun d => !(d = []))).map
        (fun d => (d, (none : Option (List Char)))) := by
  induction ds with
  | nil => intro buf; simp [postLoop]
  | cons d ds ih =>
      intro buf
      by_cases hd : d = []
      · simp [postLoop, hd, ih]
      · simp [postLoop, hd, ih]

/-- The buffer accumulated by the per-delta loop is the concatenation
of all deltas. -/
theorem postLoop_snd (ds : List (List Char)) :
    ∀ buf, (postLoop ds buf).2 = buf ++ ds.flatten := by
  induction ds with
  | nil => intro buf; simp [postLoop]
  | cons d ds ih =>
      intro buf
      by_cases hd : d = []
      · simp [postLoop, hd, ih]
      · simp [postLoop, hd, ih]

/-- Claim C6 (confirmed).  Completion cleanup contract: a final record
is emitted exactly when the accumulated output contains a fence marker;
when emitted it is the single last record, its text is empty and its
cleaned code is the fence-removal-and-trim transform of the raw
accumulated output; with no fence marker present, the stream consists
of the fragment records alone. -/
theorem claim_C6 (deltas : List (List Char)) :
    (hasTriple deltas.flatten = true →
      postRecords deltas =
        (deltas.filter (fun d => !(d = []))).map
          (fun d => (d, (none : Option (List Char)))) ++
        [(([] : List Char), some (cleanCode deltas.flatten))]) ∧
    (hasTriple deltas.flatten = false →
      postRecords deltas =
        (deltas.filter (fun d => !(d = []))).map
          (fun d => (d, (none : Option (List Char))))) := by
  constructor
  · intro h
    simp [postRecords, postLoop_fst, postLoop_snd, h]
  · intro h
    simp [postRecords, postLoop_fst, postLoop_snd, h]

/-- Witness for claim C6 on a delta stream containing a fence. -/
theorem claim_C6_witness :
    postRecords [("a").data, [btick, btick, btick]] =
      ([("a").data, [btick, btick, btick]].filter (fun d => !(d = []))).map
        (fun d => (d, (none : Option (List Char)))) ++
      [(([] : List Char),
        some (cleanCode ([("a").data, [btick, btick, btick]].flatten)))] :=
  (claim_C6 [("a").data, [btick, btick, btick]]).1 (by decide)

/-- Splitting never produces an empty list of pieces. -/
theorem splitLines_ne_nil (l : List Char) : splitLines l ≠ [] := by
  cases l with
  | nil => simp [splitLines]
  | cons c r =>
      simp only [splitLines]
      split
      · simp
      · split <;> simp

/-- Splitting distributes over a newline separator. -/
theorem splitLines_append (a b : List Char) :
    splitLines (a ++ nlChar :: b) = splitLines a ++ splitLines b := by
  induction a with
  | nil => simp [splitLines]
  | cons c a ih =>
      by_cases hc : c = nlChar
      · simp [splitLines, hc, ih]
      · obtain ⟨l0, ls0, h0⟩ :
            ∃ l0 ls0, splitLines a = l0 :: ls0 := by
          cases h : splitLines a with
          | nil => exact absurd h (splitLines_ne_nil a)
          | cons x xs => exact ⟨x, xs, rfl⟩
        have h1 : splitLines (c :: (a ++ nlChar :: b)) =
            match splitLines (a ++ nlChar :: b) with
            | l :: ls => (c :: l) :: ls
            | [] => [[c]] := by
          simp [splitLines, hc]
        have h2 : splitLines (c :: a) = (c :: l0) :: ls0 := by
          simp [splitLines, hc, h0]
        rw [List.cons_append, h1, ih, h0, h2]
        simp

/-- A text without newline characters is a single line. -/
theorem splitLines_no_nl (m : List Char) (h : nlChar ∉ m) : splitLines m = [m] := by
  induction m with
  | nil => simp [splitLines]
  | cons c r ih =>
      have hc : ¬ c = nlChar := fun hh => h (by simp [hh])
      have hr : nlChar ∉ r := fun hh => h (by simp [hh])
      simp [splitLines, hc, ih hr]

/-- A line that fails to parse contributes nothing. -/
theorem lineToRec_of_parse_none (m : List Char) (hm : jsonParse m = none) :
    lineToRec m = none := by
  unfold lineToRec
  split
  · rfl
  · exact hm

/-- Claim C8 (confirmed).  Malformed-line recovery of the stream
decoder: a line that is not valid JSON never terminates decoding —
exactly that line is dropped and the records of all surrounding
well-formed lines are still yielded, the result being the same as for
the stream without the malformed line. -/
theorem claim_C8 (c1 c2 m : List Char) (hm : jsonParse m = none)
    (hnl : nlChar ∉ m) :
    readStreamText [c1 ++ nlChar :: (m ++ nlChar :: c2)] =
      readStreamText [c1 ++ nlChar :: c2] := by
  simp only [readStreamText, List.map_cons, List.map_nil, List.flatten,
    List.append_nil, processChunk]
  rw [splitLines_append, splitLines_append, splitLines_append,
    splitLines_no_nl m hnl]
  simp [List.filterMap_append, lineToRec_of_parse_none m hm]

/-- Witness for claim C8: a malformed line between two well-formed
record lines is dropped while both records are still yielded. -/
theorem claim_C8_witness :
    readStreamText [("\x7b\"choices\":[]\x7d").data ++ nlChar ::
        ((("\x7boops").data) ++ nlChar :: (("\x7b\"choices\":[]\x7d").data))] =
      readStreamText [("\x7b\"choices\":[]\x7d").data ++ nlChar ::
        (("\x7b\"choices\":[]\x7d").data)] ∧
    readStreamText [("\x7b\"choices\":[]\x7d").data ++ nlChar ::
        (("\x7b\"choices\":[]\x7d").data)] =
      [JVal.jobj [(("choices").data, JVal.jarr [])],
       JVal.jobj [(("choices").data, JVal.jarr [])]] :=
  ⟨claim_C8 (("\x7b\"choices\":[]\x7d").data) (("\x7b\"choices\":[]\x7d").data)
      (("\x7boops").data) (by rfl) (by decide),
   by rfl⟩

/-- Streaming byte decode splits over concatenation: the state carried
across the boundary makes the two-part decode agree with the one-shot
decode. -/
theorem utf8DecodeFold_append (xs ys : List Nat) :
    ∀ st, utf8DecodeFold st (xs ++ ys) =
      ((utf8DecodeFold st xs).1 ++ (utf8DecodeFold (utf8DecodeFold st xs).2 ys).1,
       (utf8DecodeFold (utf8DecodeFold st xs).2 ys).2) := by
  induction xs with
  | nil => intro st; simp [utf8DecodeFold]
  | cons b bs ih => intro st; simp [utf8DecodeFold, ih, List.append_assoc]

/-- Text produced chunk-by-chunk with threaded decoder state equals the
text of the concatenated byte stream: chunk boundaries, in particular
ones splitting a multi-byte character, never corrupt the decoded text. -/
theorem utf8Texts_flatten (chunks : List (List Nat)) :
    ∀ st, (utf8Texts st chunks).flatten = (utf8DecodeFold st chunks.flatten).1 := by
  induction chunks with
  | nil => intro st; simp [utf8Texts, utf8DecodeFold]
  | cons c cs ih =>
      intro st
      simp [utf8Texts, utf8DecodeFold_append, ih]

/-- Processing a chunk made of newline-terminated lines yields exactly
the parses of its non-blank well-formed lines. -/
theorem processChunk_lines (ls : List (List Char)) (h : ∀ l ∈ ls, nlChar ∉ l) :
    processChunk ((ls.map (fun l => l ++ [nlChar])).flatten) =
      ls.filterMap lineToRec := by
  induction ls with
  | nil =>
      simp [processChunk, splitLines, lineToRec, jsTrim, trimL, trimR]
  | cons l ls ih =>
      have hl : nlChar ∉ l := h l (by simp)
      have hrest : ∀ x ∈ ls, nlChar ∉ x := fun x hx => h x (by simp [hx])
      simp only [List.map_cons, List.flatten_cons, processChunk]
      rw [show (l ++ [nlChar]) ++ (ls.map (fun t => t ++ [nlChar])).flatten
            = l ++ nlChar :: (ls.map (fun t => t ++ [nlChar])).flatten by simp]
      rw [splitLines_append, splitLines_no_nl l hl, List.filterMap_append]
      have ih2 := ih hrest
      simp only [processChunk] at ih2
      rw [ih2]
      cases hlr : lineToRec l <;> simp [hlr]

/-- Claim C4 (corrected, amended part).  Chunk-boundary behaviour of
the stream decoder: when every chunk consists of whole
newline-terminated lines, every record is yielded exactly once in
order; and the text-decoding layer is boundary-safe — decoding byte
chunks with threaded state yields the same text as decoding their
concatenation, so multi-byte characters split across chunks are not
corrupted.  (Line-level reassembly across chunks does not happen; see
the counterexample.) -/
theorem claim_C4 :
    (∀ lls : List (List (List Char)), (∀ l ∈ lls.flatten, nlChar ∉ l) →
      readStreamText (lls.map (fun ls => (ls.map (fun l => l ++ [nlChar])).flatten)) =
        lls.flatten.filterMap lineToRec) ∧
    (∀ chunks : List (List Nat),
      (utf8Texts initUtf8 chunks).flatten =
        (utf8DecodeFold initUtf8 chunks.flatten).1) := by
  constructor
  · intro lls h
    induction lls with
    | nil => simp [readStreamText]
    | cons ls lls ih =>
        have h1 : ∀ l ∈ ls, nlChar ∉ l := fun l hl => h l (by simp [hl])
        have h2 : ∀ l ∈ lls.flatten, nlChar ∉ l := fun l hl => h l (by simp [hl])
        simp only [readStreamText, List.map_cons, List.flatten_cons,
          List.filterMap_append]
        rw [processChunk_lines ls h1]
        have ih2 := ih h2
        simp only [readStreamText] at ih2
        rw [ih2]
  · exact fun chunks => utf8Texts_flatten chunks initUtf8

/-- Witness for claim C4: a single line-aligned chunk decodes to its
record, and the euro sign byte sequence split across two chunks decodes
to the same text as unsplit. -/
theorem claim_C4_witness :
    readStreamText ([[("\x7b\"choices\":[]\x7d").data]].map
        (fun ls => (ls.map (fun l => l ++ [nlChar])).flatten)) =
      ([[("\x7b\"choices\":[]\x7d").data]].flatten).filterMap lineToRec ∧
    (utf8Texts initUtf8 [[0xE2], [0x82, 0xAC]]).flatten =
      (utf8DecodeFold initUtf8 ([[0xE2], [0x82, 0xAC]].flatten)).1 :=
  ⟨(claim_C4).1 [[("\x7b\"choices\":[]\x7d").data]] (by decide),
   (claim_C4).2 [[0xE2], [0x82, 0xAC]]⟩

/-- Counterexample to claim C4 as stated: a well-formed record line
split between two byte chunks is not reassembled — the two-chunk stream
yields no record while the concatenated one-chunk stream yields exactly
the record, so a record split across chunk boundaries is lost, not
yielded exactly once. -/
theorem claim_C4_counterexample :
    readStream [c4bytes1, c4bytes2] = [] ∧
    readStream [c4bytes1 ++ c4bytes2] = [c4record] := by
  constructor <;> rfl

/-- A non-backtick head does not affect the triple-backtick test. -/
theorem hasTriple_cons_ne (c : Char) (l : List Char) (hc : ¬ c = btick) :
    hasTriple (c :: l) = hasTriple l := by
  cases l with
  | nil => rfl
  | cons x t =>
      cases t with
      | nil => rfl
      | cons y r => simp [hasTriple, hc]

/-- The triple-backtick test propagates to the tail. -/
theorem hasTriple_tail (c : Char) (l : List Char) (h : hasTriple (c :: l) = false) :
    hasTriple l = false := by
  cases l with
  | nil => rfl
  | cons x t =>
      cases t with
      | nil => rfl
      | cons y r =>
          simp [hasTriple] at h ⊢
          exact h.2

/-- Prepending preserves a positive triple-backtick test. -/
theorem hasTriple_cons_true (c : Char) (l : List Char) (h : hasTriple l = true) :
    hasTriple (c :: l) = true := by
  cases l with
  | nil => simp [hasTriple] at h
  | cons x t =>
      cases t with
      | nil => simp [hasTriple] at h
      | cons y r => simp [hasTriple, h]

/-- Characterization of the triple-backtick test as a decomposition
around an occurrence of three consecutive backticks. -/
theorem hasTriple_eq_true_iff (l : List Char) :
    hasTriple l = true ↔ ∃ p q, l = p ++ btick :: btick :: btick :: q := by
  constructor
  · induction l with
    | nil => intro h; simp [hasTriple] at h
    | cons c t ih =>
        intro h
        cases t with
        | nil => simp [hasTriple] at h
        | cons x t2 =>
            cases t2 with
            | nil => simp [hasTriple] at h
            | cons y r =>
                rw [hasTriple, Bool.or_eq_true] at h
                rcases h with h1 | h2
                · have hc : (c = btick ∧ x = btick) ∧ y = btick := by simpa using h1
                  exact ⟨[], r, by simp [hc.1.1, hc.1.2, hc.2]⟩
                · obtain ⟨p, q, hpq⟩ := ih h2
                  exact ⟨c :: p, q, by simp [hpq]⟩
  · rintro ⟨p, q, rfl⟩
    induction p with
    | nil => simp [hasTriple]
    | cons a p ih => exact hasTriple_cons_true a _ ih

/-- A text containing a segment with three backticks has them too. -/
theorem hasTriple_middle (p m q : List Char) (h : hasTriple m = true) :
    hasTriple (p ++ m ++ q) = true := by
  obtain ⟨a, b, rfl⟩ := (hasTriple_eq_true_iff m).mp h
  exact (hasTriple_eq_true_iff _).mpr ⟨p ++ a, b ++ q, by simp⟩

/-- Trailing trim splits the text into the trimmed part and the
trailing whitespace. -/
theorem trimR_decomp (m : List Char) :
    m = trimR m ++ (m.reverse.takeWhile isWsChar).reverse := by
  conv_lhs => rw [← List.reverse_reverse m,
    ← List.takeWhile_append_dropWhile (p := isWsChar) (l := m.reverse)]
  rw [List.reverse_append]
  rfl

/-- The trimmed text sits in the middle of the original. -/
theorem jsTrim_middle (s : List Char) : ∃ p q, s = p ++ jsTrim s ++ q := by
  refine ⟨s.takeWhile isWsChar, ((trimL s).reverse.takeWhile isWsChar).reverse, ?_⟩
  conv_lhs => rw [← List.takeWhile_append_dropWhile (p := isWsChar) (l := s)]
  rw [List.append_assoc]
  congr 1
  exact trimR_decomp (trimL s)

/-- Trimming cannot create three consecutive backticks. -/
theorem hasTriple_jsTrim (s : List Char) (h : hasTriple s = false) :
    hasTriple (jsTrim s) = false := by
  by_contra hc
  have h1 : hasTriple (jsTrim s) = true := by
    cases h2 : hasTriple (jsTrim s) with
    | false => exact absurd h2 hc
    | true => rfl
  obtain ⟨p, q, hs⟩ := jsTrim_middle s
  have h3 := hasTriple_middle p (jsTrim s) q h1
  rw [← hs] at h3
  rw [h3] at h
  exact Bool.noConfusion h

/-- Dropping a prefix of whitespace twice is the same as once. -/
theorem dropWhile_ws_idem (l : List Char) :
    (l.dropWhile isWsChar).dropWhile isWsChar = l.dropWhile isWsChar := by
  induction l with
  | nil => simp
  | cons c t ih =>
      by_cases hc : isWsChar c = true
      · simp [List.dropWhile_cons, hc, ih]
      · simp [List.dropWhile_cons, hc]

/-- Trailing trim is idempotent. -/
theorem trimR_idem (m : List Char) : trimR (trimR m) = trimR m := by
  unfold trimR
  rw [List.reverse_reverse, dropWhile_ws_idem]

/-- Dropping a whitespace prefix never lengthens a text. -/
theorem length_dropWhile_ws_le (l : List Char) :
    (l.dropWhile isWsChar).length ≤ l.length := by
  induction l with
  | nil => simp
  | cons c t ih =>
      by_cases hc : isWsChar c = true
      · simp only [List.dropWhile_cons, hc, if_true]
        exact Nat.le_trans ih (Nat.le_succ _)
      · simp [List.dropWhile_cons, hc]

/-- Leading trim is a no-op on a text already trimmed at the end of a
leading trim. -/
theorem trimL_trimR (m : List Char) (hm : trimL m = m) :
    trimL (trimR m) = trimR m := by
  cases h : trimR m with
  | nil => simp [trimL]
  | cons c t =>
      obtain ⟨q, hd⟩ : ∃ q, m = (c :: t) ++ q :=
        ⟨(m.reverse.takeWhile isWsChar).reverse, by
          conv_lhs => rw [trimR_decomp m]
          rw [h]⟩
      have hcw : isWsChar c = false := by
        by_contra hcc
        have hcc2 : isWsChar c = true := by
          cases hcx : isWsChar c with
          | false => exact absurd hcx hcc
          | true => rfl
        have hm2 : trimL m = trimL (t ++ q) := by
          conv_lhs => rw [hd]
          simp [trimL, List.dropWhile_cons, hcc2]
        rw [hm] at hm2
        have hlen := congrArg List.length hm2
        have hle : (trimL (t ++ q)).length ≤ (t ++ q).length :=
          length_dropWhile_ws_le _
        rw [hd] at hlen
        simp at hlen hle
        omega
      simp [trimL, h, List.dropWhile_cons, hcw]

/-- The whole trim is idempotent. -/
theorem jsTrim_idem (s : List Char) : jsTrim (jsTrim s) = jsTrim s := by
  unfold jsTrim
  rw [trimL_trimR (trimL s) (dropWhile_ws_idem s), trimR_idem]

/-- Explicit form of the fence-match length at a constructor head. -/
theorem fenceLen_cons (tag : List Char) (b1 b2 b3 : Char) (rest : List Char) :
    fenceLen tag (b1 :: b2 :: b3 :: rest) =
      if (decide (b1 = btick) && decide (b2 = btick) && decide (b3 = btick) &&
          ciStarts tag rest) = true then
        3 + tag.length +
          (if (rest.drop tag.length).head? = some nlChar then 1 else 0)
      else 0 := rfl

/-- Fence-match length of the plain fence at a triple-backtick head. -/
theorem fenceLen_plain_bt (u : List Char) :
    fenceLen [] (btick :: btick :: btick :: u) =
      3 + (if u.head? = some nlChar then 1 else 0) := by
  rw [fenceLen_cons]
  simp [ciStarts]

/-- Without three consecutive backticks there is no fence match. -/
theorem fenceLen_zero_of_no_triple (tag : List Char) (s : List Char)
    (h : hasTriple s = false) : fenceLen tag s = 0 := by
  cases s with
  | nil => rfl
  | cons b1 t1 =>
      cases t1 with
      | nil => rfl
      | cons b2 t2 =>
          cases t2 with
          | nil => rfl
          | cons b3 rest =>
              rw [fenceLen_cons]
              have hb : ¬ ((decide (b1 = btick) && decide (b2 = btick) &&
                  decide (b3 = btick) && ciStarts tag rest) = true) := by
                intro hbc
                have hb2 : b1 = btick ∧ b2 = btick ∧ b3 = btick := by
                  simp only [Bool.and_eq_true, decide_eq_true_eq] at hbc
                  exact ⟨hbc.1.1.1, hbc.1.1.2, hbc.1.2⟩
                have h3 : hasTriple (b1 :: b2 :: b3 :: rest) = true := by
                  rw [hasTriple, Bool.or_eq_true]
                  left
                  simp [hb2.1, hb2.2.1, hb2.2.2]
                rw [h3] at h
                exact Bool.noConfusion h
              rw [if_neg hb]

/-- Stripping the empty text yields the empty text at any fuel. -/
theorem stripFenceGo_nil (tag : List Char) (fuel : Nat) :
    stripFenceGo tag fuel [] = [] := by
  cases fuel <;> rfl

/-- A text without fence markers is left unchanged by a removal pass. -/
theorem stripFenceGo_id (tag : List Char) :
    ∀ (fuel : Nat) (s : List Char), hasTriple s = false →
      stripFenceGo tag fuel s = s := by
  intro fuel
  induction fuel with
  | zero => intro s h; rfl
  | succ f ih =>
      intro s h
      cases s with
      | nil => rfl
      | cons c cs =>
          simp only [stripFenceGo, fenceLen_zero_of_no_triple tag (c :: cs) h,
            if_pos]
          rw [ih cs (hasTriple_tail c cs h)]

/-- Removal passes do not change fence-free text. -/
theorem stripFence_id (tag : List Char) (s : List Char)
    (h : hasTriple s = false) : stripFence tag s = s :=
  stripFenceGo_id tag s.length s h

/-- Invariant of the plain-fence removal pass: the output has no three
consecutive backticks, and a leading backtick or double backtick of the
output comes from one of the input. -/
theorem stripPlain_inv :
    ∀ (fuel : Nat) (s : List Char), s.length ≤ fuel →
      hasTriple (stripFenceGo [] fuel s) = false ∧
      (∀ t, stripFenceGo [] fuel s = btick :: t → ∃ u, s = btick :: u) ∧
      (∀ t, stripFenceGo [] fuel s = btick :: btick :: t →
        ∃ u, s = btick :: btick :: u) := by
  intro fuel
  induction fuel with
  | zero =>
      intro s hlen
      have hs : s = [] := List.length_eq_zero.mp (Nat.le_zero.mp hlen)
      subst hs
      refine ⟨rfl, ?_, ?_⟩ <;> intro t ht <;>
        exact absurd ht (by simp [stripFenceGo])
  | succ f ih =>
      intro s hlen
      cases s with
      | nil =>
          refine ⟨rfl, ?_, ?_⟩ <;> intro t ht <;>
            exact absurd ht (by simp [stripFenceGo])
      | cons c cs =>
          by_cases hf : fenceLen [] (c :: cs) = 0
          · have hout : stripFenceGo [] (f + 1) (c :: cs) =
                c :: stripFenceGo [] f cs := by
              simp [stripFenceGo, hf]
            have hcs : cs.length ≤ f := by
              simp only [List.length_cons] at hlen
              omega
            obtain ⟨ih1, ih2, ih3⟩ := ih cs hcs
            refine ⟨?_, ?_, ?_⟩
            · rw [hout]
              cases hO : stripFenceGo [] f cs with
              | nil => rfl
              | cons o1 os =>
                  cases os with
                  | nil => rfl
                  | cons o2 os2 =>
                      have hrest : hasTriple (o1 :: o2 :: os2) = false := by
                        rw [hO] at ih1; exact ih1
                      by_cases hc : c = btick
                      · by_cases ho : o1 = btick ∧ o2 = btick
                        · exfalso
                          obtain ⟨u, hu⟩ := ih3 os2 (by rw [hO, ho.1, ho.2])
                          rw [hc, hu, fenceLen_plain_bt] at hf
                          split at hf <;> omega
                        · have hd1 : (decide (c = btick) && decide (o1 = btick) &&
                              decide (o2 = btick)) = false := by
                            simp only [Bool.and_eq_false_iff,
                              decide_eq_false_iff_not]
                            rcases not_and_or.mp ho with hno | hno <;> tauto
                          rw [show hasTriple (c :: o1 :: o2 :: os2) =
                              ((decide (c = btick) && decide (o1 = btick) &&
                                decide (o2 = btick)) ||
                                hasTriple (o1 :: o2 :: os2)) from rfl,
                            hrest, hd1]
                          rfl
                      · rw [hasTriple_cons_ne c _ hc]
                        exact hrest
            · intro t ht
              rw [hout] at ht
              injection ht with h1 h2
              exact ⟨cs, by rw [h1]⟩
            · intro t ht
              rw [hout] at ht
              injection ht with h1 h2
              obtain ⟨u, hu⟩ := ih2 t h2
              exact ⟨u, by rw [h1, hu]⟩
          · cases cs with
            | nil => exact absurd rfl hf
            | cons x t2 =>
                cases t2 with
                | nil => exact absurd rfl hf
                | cons y r =>
                    have hcond : c = btick ∧ x = btick ∧ y = btick := by
                      by_contra hcc
                      apply hf
                      rw [fenceLen_cons]
                      have hfalse : (decide (c = btick) && decide (x = btick) &&
                          decide (y = btick) && ciStarts [] r) = false := by
                        simp only [ciStarts, Bool.and_true,
                          Bool.and_eq_false_iff, decide_eq_false_iff_not]
                        tauto
                      rw [hfalse]
                      rfl
                    obtain ⟨hc, hx, hy⟩ := hcond
                    subst hc; subst hx; subst hy
                    have hout : stripFenceGo [] (f + 1)
                        (btick :: btick :: btick :: r) =
                        stripFenceGo [] f ((btick :: btick :: r).drop
                          (fenceLen [] (btick :: btick :: btick :: r) - 1)) := by
                      simp [stripFenceGo, hf]
                    have hn3 := fenceLen_plain_bt r
                    have hdlen : ((btick :: btick :: r).drop
                        (fenceLen [] (btick :: btick :: btick :: r) - 1)).length ≤ f := by
                      rw [List.length_drop]
                      simp only [List.length_cons] at hlen ⊢
                      rw [hn3]
                      split <;> omega
                    obtain ⟨ih1, ih2, ih3⟩ := ih _ hdlen
                    rw [hout]
                    refine ⟨ih1, ?_, ?_⟩
                    · intro t ht
                      exact ⟨btick :: btick :: r, rfl⟩
                    · intro t ht
                      exact ⟨btick :: r, rfl⟩

/-- The plain-fence pass leaves no three consecutive backticks. -/
theorem hasTriple_stripPlain (s : List Char) :
    hasTriple (stripFence [] s) = false :=
  (stripPlain_inv s.length s le_rfl).1

/-- Claim C7 (confirmed).  Completion cleanup idempotence: on trimmed
text without fence markers the cleanup transform is the identity; for
every input the output contains no residual triple-backtick sequence;
hence applying the transform twice equals applying it once. -/
theorem claim_C7 :
    (∀ s, hasTriple s = false → jsTrim s = s → cleanCode s = s) ∧
    (∀ s, hasTriple (cleanCode s) = false) ∧
    (∀ s, cleanCode (cleanCode s) = cleanCode s) := by
  have h2 : ∀ s, hasTriple (cleanCode s) = false := by
    intro s
    exact hasTriple_jsTrim _ (hasTriple_stripPlain _)
  have h1 : ∀ s, hasTriple s = false → jsTrim s = s → cleanCode s = s := by
    intro s hs ht
    unfold cleanCode
    rw [stripFence_id _ _ hs, stripFence_id _ _ hs, stripFence_id _ _ hs,
      stripFence_id _ _ hs, stripFence_id _ _ hs, ht]
  refine ⟨h1, h2, ?_⟩
  intro s
  exact h1 (cleanCode s) (h2 s) (jsTrim_idem _)

/-- Witness for claim C7 at a fence-free trimmed text. -/
theorem claim_C7_witness :
    cleanCode (("import React").data) = ("import React").data :=
  (claim_C7).1 (("import React").data) (by decide) (by decide)
